import Mathlib

/-!
Shallow embedding of the animation core of `src/matrix.c`.

Conventions used throughout:
* C `int` values are modelled as `ℤ`, or as `ℕ` where the C value is
  provably nonnegative for its whole lifetime (`depth`, `clock`, counts).
* C `float` arithmetic is modelled exactly over `ℚ`; the implicit
  float-to-int conversion of the source truncates toward zero, modelled
  by `c_trunc`.
* `rand()` is modelled by an explicit stream `rng : ℕ → ℕ` of draws
  together with a counter advanced once per `rand()` call, in source
  evaluation order.
* `malloc` / `realloc` success is modelled by a stream `alloc : ℕ → Bool`
  with its own counter; fallible functions return `Except ℕ _` carrying
  the C return code.  On failure the partially mutated column is never
  used by the source (the update loop aborts), so the model only records
  the error code.
-/

def MIN_LENGTH : ℤ := 4
def MAX_LENGTH : ℤ := 30

def COLOR_COUNT : ℕ := 7
def DEPTH_COUNT : ℕ := 6

/-- C macro `RANDOM_VALUE_GET(MIN, MAX)` = `rand() % (1 + MAX - MIN) + MIN`,
with the `rand()` draw `r` passed explicitly. -/
def RANDOM_VALUE_GET (lo hi : ℤ) (r : ℕ) : ℤ := (r : ℤ) % (1 + hi - lo) + lo

/-- C macro `RATIO_VALUE_GET(MIN, MAX, RATIO)` = `RATIO * (MAX - MIN) + MIN`,
over exact rationals. -/
def RATIO_VALUE_GET (lo hi q : ℚ) : ℚ := q * (hi - lo) + lo

/-- C float-to-int conversion: truncation toward zero. -/
def c_trunc (x : ℚ) : ℤ := if 0 ≤ x then ⌊x⌋ else ⌈x⌉

/-- Total weight in `depth_gen`: the sum of `(args.depth - depth)` for
`depth` from `0` to `args.depth` (the configured maximum depth). -/
def total_weight (maxDepth : ℕ) : ℕ := ∑ d ∈ Finset.range (maxDepth + 1), (maxDepth - d)

/-- The cumulative-weight search loop of `depth_gen`.  The C loop runs
`depth` upward from `0` while `depth < maxDepth`; here `fuel` is the
number of remaining iterations (`maxDepth - depth`), so the guard
`depth < maxDepth` is exactly `fuel > 0`, and the fall-through return
value is `maxDepth`. -/
def depth_gen_go (maxDepth rand_weight : ℕ) : ℕ → ℕ → ℕ → ℕ
  | 0, _, _ => maxDepth
  | fuel + 1, depth, cum =>
    if cum + (maxDepth - depth) > rand_weight then depth
    else depth_gen_go maxDepth rand_weight fuel (depth + 1) (cum + (maxDepth - depth))

/-- The depth selector, applied to a weight already reduced to
`[0, total_weight]`. -/
def depth_pick (maxDepth rand_weight : ℕ) : ℕ := depth_gen_go maxDepth rand_weight maxDepth 0 0

/-- `depth_gen` of the source, with the raw `rand()` draw `r` explicit:
`rand_weight = RANDOM_VALUE_GET(0, total_weight) = r % (1 + total_weight)`. -/
def depth_gen (maxDepth r : ℕ) : ℕ := depth_pick maxDepth (r % (1 + total_weight maxDepth))

/-- Number of draw values in `[0, total_weight]` on which the depth
selector returns `target`. -/
def draw_count (maxDepth target : ℕ) : ℕ :=
  ((Finset.range (total_weight maxDepth + 1)).filter (fun w => depth_pick maxDepth w = target)).card

/-- The `depth_ratio` computed identically in `length_gen` and `y_gen`:
`(float)(DEPTH_COUNT - depth) / (float) DEPTH_COUNT`.  Note that the
source uses the fixed constant `DEPTH_COUNT`, not the configured
maximum depth `args.depth`. -/
def depth_ratio (depth : ℕ) : ℚ := ((DEPTH_COUNT : ℚ) - (depth : ℚ)) / (DEPTH_COUNT : ℚ)

/-- The `max_length` computed in `length_gen`
(`args.length` is passed as `lengthSetting`). -/
def max_length_gen (lengthSetting depth : ℕ) : ℤ :=
  c_trunc (RATIO_VALUE_GET (MIN_LENGTH : ℚ) (MAX_LENGTH : ℚ)
    (((lengthSetting : ℚ) / 10) * depth_ratio depth))

/-- `length_gen` of the source, with the `rand()` draw `r` explicit. -/
def length_gen (lengthSetting depth : ℕ) (r : ℕ) : ℤ :=
  RANDOM_VALUE_GET MIN_LENGTH (max_length_gen lengthSetting depth) r

/-- The `max_y` computed in `y_gen` (`args.air` is passed as `airSetting`). -/
def max_y_gen (airSetting depth : ℕ) : ℤ :=
  c_trunc (RATIO_VALUE_GET (MAX_LENGTH : ℚ) ((MAX_LENGTH : ℚ) * 6)
    (((airSetting : ℚ) / 10) * depth_ratio depth))

/-- `y_gen` of the source, with the `rand()` draw `r` explicit. -/
def y_gen (airSetting depth : ℕ) (r : ℕ) : ℤ :=
  -(RANDOM_VALUE_GET 0 (max_y_gen airSetting depth) r)

/-- The `string_t` of the source; `symbols` holds the character codes. -/
structure string_t where
  symbols : List ℤ
  length  : ℤ
  depth   : ℕ
  clock   : ℕ
  y       : ℤ
deriving DecidableEq, Inhabited

/-- `symbol_get`: a random printable character, ASCII 33..126. -/
def symbol_get (r : ℕ) : ℤ := RANDOM_VALUE_GET 33 126 r

/-- `string_update` of the source.  The clock always advances modulo
`depth + 1`; exactly when it wraps to 0, `y` is incremented and the
descending shift loop (`symbols[i] = symbols[i-1]` for `i` from
`length-1` down to `1`) followed by the write of a fresh symbol to
index 0 prepends the fresh symbol and drops the last one.  One `rand()`
draw is consumed exactly on the wrap. -/
def string_update (s : string_t) (rng : ℕ → ℕ) (r : ℕ) : string_t × ℕ :=
  let clock := (s.clock + 1) % (s.depth + 1)
  if clock ≠ 0 then ({ s with clock := clock }, r)
  else
    ({ s with clock := clock, y := s.y + 1,
              symbols := symbol_get (rng r) :: s.symbols.dropLast }, r + 1)

/-- `n` consecutive calls of `string_update`, threading the draw counter. -/
def string_advance_n (s : string_t) (rng : ℕ → ℕ) (r : ℕ) : ℕ → string_t × ℕ
  | 0 => (s, r)
  | n + 1 =>
    let p := string_advance_n s rng r n
    string_update p.1 rng p.2

/-- The random and allocation oracles of a run. -/
structure env_t where
  rng   : ℕ → ℕ
  alloc : ℕ → Bool

/-- Counters: index of the next `rand()` draw and of the next allocation. -/
structure ctr_t where
  r : ℕ
  a : ℕ
deriving DecidableEq

/-- `string_init` of the source: depth, length and y are generated
(three `rand()` draws, in that order), then the symbol array is
allocated and filled with `length` random symbols.  Returns the C error
code 1 when `malloc` fails. -/
def string_init (maxDepth lengthSetting airSetting : ℕ) (env : env_t) (c : ctr_t) :
    Except ℕ (string_t × ctr_t) :=
  let depth := depth_gen maxDepth (env.rng c.r)
  let length := length_gen lengthSetting depth (env.rng (c.r + 1))
  let y := y_gen airSetting depth (env.rng (c.r + 2))
  if env.alloc c.a then
    .ok ({ symbols := (List.range length.toNat).map (fun k => symbol_get (env.rng (c.r + 3 + k))),
           length := length, depth := depth, clock := 0, y := y },
         ⟨c.r + 3 + length.toNat, c.a + 1⟩)
  else .error 1

/-- `string_append` of the source: init a new string (code 1 on its
`malloc` failure), grow the array by one (code 2 on `realloc` failure),
and place the new string at the end. -/
def string_append (col : List string_t) (maxDepth lengthSetting airSetting : ℕ)
    (env : env_t) (c : ctr_t) : Except ℕ (List string_t × ctr_t) :=
  match string_init maxDepth lengthSetting airSetting env c with
  | .error _ => .error 1
  | .ok (s, c1) =>
    if env.alloc c1.a then .ok (col ++ [s], ⟨c1.r, c1.a + 1⟩)
    else .error 2

/-- `string_remove` of the source: code 1 when the column is empty;
otherwise free the first (oldest) string, shift the rest down (keeping
their order), and shrink the array (code 2 on `realloc` failure). -/
def string_remove (col : List string_t) (env : env_t) (c : ctr_t) :
    Except ℕ (List string_t × ctr_t) :=
  if col.length ≤ 0 then .error 1
  else if env.alloc c.a then .ok (col.tail, ⟨c.r, c.a + 1⟩)
  else .error 2

/-- Step 1 of `column_update`: `string_update` on every string in
order, threading the draw counter. -/
def strings_update (strs : List string_t) (rng : ℕ → ℕ) (r : ℕ) : List string_t × ℕ :=
  match strs with
  | [] => ([], r)
  | s :: rest =>
    let p := string_update s rng r
    let q := strings_update rest rng p.2
    (p.1 :: q.1, q.2)

/-- `column_update` of the source: update every string; if the column
is empty append one string (code 1 on failure); otherwise append when
the newest (last) string is fully emerged (`y - length > 0`), then
remove the oldest (first) string when it is fully below the viewport
(`y - length >= height`), with codes 1 and 2 on the respective
failures. -/
def column_update (col : List string_t) (height : ℤ) (maxDepth lengthSetting airSetting : ℕ)
    (env : env_t) (c : ctr_t) : Except ℕ (List string_t × ctr_t) :=
  let upd := strings_update col env.rng c.r
  let l1 := upd.1
  let c1 : ctr_t := ⟨upd.2, c.a⟩
  if l1.isEmpty then
    match string_append l1 maxDepth lengthSetting airSetting env c1 with
    | .error _ => .error 1
    | .ok x => .ok x
  else
    match (if (l1.getLastD default).y - (l1.getLastD default).length > 0 then
             string_append l1 maxDepth lengthSetting airSetting env c1
           else .ok (l1, c1)) with
    | .error _ => .error 1
    | .ok x =>
      if (x.1.headD default).y - (x.1.headD default).length ≥ height then
        match string_remove x.1 env x.2 with
        | .error _ => .error 2
        | .ok y => .ok y
      else .ok x

/-- The strings of a column after step 1 of `column_update`. -/
def updated_col (col : List string_t) (env : env_t) (c : ctr_t) : List string_t :=
  (strings_update col env.rng c.r).1

/-- The append condition of `column_update`: the newest (last) string
is fully emerged, `y - length > 0`. -/
def emerged_cond (l : List string_t) : Prop :=
  (l.getLastD default).y - (l.getLastD default).length > 0

/-- The remove condition of `column_update`: the oldest (first) string
is fully below the viewport, `y - length >= height`. -/
def unseen_cond (l : List string_t) (height : ℤ) : Prop :=
  (l.headD default).y - (l.headD default).length ≥ height

/-- `screen_update` of the source: update the columns left to right and
return 1 as soon as one column update fails. -/
def screen_update (cols : List (List string_t)) (height : ℤ)
    (maxDepth lengthSetting airSetting : ℕ) (env : env_t) (c : ctr_t) :
    Except ℕ (List (List string_t) × ctr_t) :=
  match cols with
  | [] => .ok ([], c)
  | col :: rest =>
    match column_update col height maxDepth lengthSetting airSetting env c with
    | .error _ => .error 1
    | .ok (col', c') =>
      match screen_update rest height maxDepth lengthSetting airSetting env c' with
      | .error e => .error e
      | .ok (rest', c'') => .ok (col' :: rest', c'')

/-- The `while (is_running)` loop of `print_routine`, counting the
number of `screen_update` calls performed.  `running t` is the value of
the `is_running` flag read at the top of iteration `t`; the loop breaks
as soon as `screen_update` returns nonzero.  `fuel` bounds the number
of iterations the model can observe. -/
def print_routine_loop (height : ℤ) (maxDepth lengthSetting airSetting : ℕ)
    (env : env_t) (running : ℕ → Bool) :
    ℕ → ℕ → List (List string_t) → ctr_t → ℕ
  | 0, _, _, _ => 0
  | fuel + 1, t, cols, c =>
    if running t then
      match screen_update cols height maxDepth lengthSetting airSetting env c with
      | .error _ => 1
      | .ok (cols', c') =>
        1 + print_routine_loop height maxDepth lengthSetting airSetting env running fuel (t + 1) cols' c'
    else 0

/-- `color_get` of the source: index 0 maps to `1 + depth * COLOR_COUNT`;
a positive index maps through `ratio = index / length` and
`depth_index = RATIO_VALUE_GET(1, COLOR_COUNT - 2, ratio)` (float
arithmetic truncated to int). -/
def color_get (depth : ℕ) (index length : ℤ) : ℤ :=
  if index = 0 then 1 + (depth : ℤ) * (COLOR_COUNT : ℤ)
  else 1 + (depth : ℤ) * (COLOR_COUNT : ℤ) +
    c_trunc (RATIO_VALUE_GET 1 ((COLOR_COUNT : ℚ) - 2) ((index : ℚ) / (length : ℚ)))

/-- Spec formula for the depth ratio (claim C4 wording): depthRatio =
`(maxDepth - depth) / maxDepth` where `maxDepth` is the configured
maximum depth used by the depth selector. -/
def spec_depth_ratio (maxDepth depth : ℕ) : ℚ :=
  ((maxDepth : ℚ) - (depth : ℚ)) / (maxDepth : ℚ)

/-- Spec formula for the maximum length (claim C4 wording): maxLength =
`MIN_LENGTH + ratio * (MAX_LENGTH - MIN_LENGTH)` with ratio =
`lengthSetting / 10 * spec_depth_ratio maxDepth depth`. -/
def spec_max_length (maxDepth lengthSetting depth : ℕ) : ℤ :=
  c_trunc ((MIN_LENGTH : ℚ) +
    (((lengthSetting : ℚ) / 10) * spec_depth_ratio maxDepth depth) *
      ((MAX_LENGTH : ℚ) - (MIN_LENGTH : ℚ)))

/-- Spec formula for the color of a trailing symbol (claim C8 wording):
the shade is interpolated between the second-brightest shade (offset 1)
and the dimmest shade of the depth block (offset `COLOR_COUNT - 1`). -/
def spec_color_get (depth : ℕ) (index length : ℤ) : ℤ :=
  if index = 0 then 1 + (depth : ℤ) * (COLOR_COUNT : ℤ)
  else 1 + (depth : ℤ) * (COLOR_COUNT : ℤ) +
    c_trunc (RATIO_VALUE_GET 1 ((COLOR_COUNT : ℚ) - 1) ((index : ℚ) / (length : ℚ)))

/-- An environment whose allocations all succeed and whose `rand()`
stream is constantly 0. -/
def env_ok : env_t := ⟨fun _ => 0, fun _ => true⟩

/-- An environment whose allocations all fail. -/
def env_no_alloc : env_t := ⟨fun _ => 0, fun _ => false⟩

/-- An `is_running` flag that stays true. -/
def running_true : ℕ → Bool := fun _ => true

/-- A constant `rand()` stream returning 1. -/
def rng_one : ℕ → ℕ := fun _ => 1

/-- A concrete well-formed string used by witnesses: four symbols,
depth 0, clock 0, leading edge at row 0. -/
def string_w0 : string_t := ⟨[35, 36, 37, 38], 4, 0, 0, 0⟩

/-- `string_w0` after one update (its clock wraps immediately at depth
0): the fresh symbol 33 enters at index 0 and `y` advances to 1. -/
def string_w1 : string_t := ⟨[33, 35, 36, 37], 4, 0, 0, 1⟩

/-- A concrete well-formed string at depth 2 with clock 0, used by the
advance-cycle witness. -/
def string_w2 : string_t := ⟨[40, 41, 42, 43], 4, 2, 0, 7⟩

/-! ### Helper lemmas for the depth selector -/

-- The search loop returns either `maxDepth` (fall-through) or some index
-- below `depth + fuel`.
theorem depth_gen_go_le (m w : ℕ) (fuel : ℕ) :
    ∀ d cum, depth_gen_go m w fuel d cum ≤ max m (d + fuel) := by
  induction fuel with
  | zero => intro d cum; simp [depth_gen_go]
  | succ f ih =>
    intro d cum
    rw [depth_gen_go]
    split
    · omega
    · exact le_trans (ih (d + 1) _) (by omega)

-- The search loop never returns an index below its starting index,
-- except for the fall-through value `maxDepth`.
theorem depth_gen_go_ge (m w : ℕ) (fuel : ℕ) :
    ∀ d cum, d ≤ depth_gen_go m w fuel d cum ∨ depth_gen_go m w fuel d cum = m := by
  induction fuel with
  | zero => intro d cum; right; rfl
  | succ f ih =>
    intro d cum
    rw [depth_gen_go]
    split
    · left; exact le_refl d
    · rcases ih (d + 1) (cum + (m - d)) with h | h
      · left; omega
      · right; exact h

-- Characterization: the selector returns depth 0 exactly on the draws
-- below the weight of depth 0 (which is `maxDepth`).
theorem depth_pick_eq_zero (m w : ℕ) (hm : 1 ≤ m) : depth_pick m w = 0 ↔ w < m := by
  obtain ⟨f, rfl⟩ : ∃ f, m = f + 1 := ⟨m - 1, by omega⟩
  unfold depth_pick
  rw [depth_gen_go]
  split
  · next h => constructor
              · intro _; omega
              · intro _; rfl
  · next h =>
      have hne : depth_gen_go (f + 1) w f (0 + 1) (0 + (f + 1 - 0)) ≠ 0 := by
        rcases depth_gen_go_ge (f + 1) w f (0 + 1) (0 + (f + 1 - 0)) with hg | hg <;> omega
      constructor
      · intro h0; exact absurd h0 hne
      · intro hw; omega

-- Characterization: the selector returns depth 1 exactly on the draws in
-- `[maxDepth, maxDepth + (maxDepth - 1))` (when `maxDepth ≥ 2`).
theorem depth_pick_eq_one (m w : ℕ) (hm : 2 ≤ m) :
    depth_pick m w = 1 ↔ m ≤ w ∧ w < m + (m - 1) := by
  obtain ⟨k, rfl⟩ : ∃ k, m = k + 2 := ⟨m - 2, by omega⟩
  unfold depth_pick
  rw [depth_gen_go]
  split
  · next h1 =>
      constructor
      · intro h; omega
      · rintro ⟨hw, -⟩; omega
  · next h1 =>
      rw [depth_gen_go]
      split
      · next h2 =>
          constructor
          · intro _; omega
          · intro _; rfl
      · next h2 =>
          have hne : depth_gen_go (k + 2) w k (0 + 1 + 1)
              (0 + (k + 2 - 0) + (k + 2 - (0 + 1))) ≠ 1 := by
            rcases depth_gen_go_ge (k + 2) w k (0 + 1 + 1)
                (0 + (k + 2 - 0) + (k + 2 - (0 + 1))) with hg | hg <;> omega
          constructor
          · intro h0; exact absurd h0 hne
          · rintro ⟨hw1, hw2⟩; omega

-- Gauss: twice the total weight is `maxDepth * (maxDepth + 1)`.
theorem total_weight_eq (m : ℕ) : 2 * total_weight m = m * (m + 1) := by
  unfold total_weight
  have h := Finset.sum_range_reflect (fun j => j) (m + 1)
  simp only [Nat.add_sub_cancel] at h
  have h2 := Finset.sum_range_id_mul_two (m + 1)
  simp only [Nat.add_sub_cancel] at h2
  calc 2 * ∑ d ∈ Finset.range (m + 1), (m - d)
      = 2 * ∑ d ∈ Finset.range (m + 1), d := by rw [h]
    _ = (∑ d ∈ Finset.range (m + 1), d) * 2 := by ring
    _ = (m + 1) * m := h2
    _ = m * (m + 1) := by ring

-- The number of draws on which the selector returns 0 is `maxDepth`.
theorem draw_count_zero (m : ℕ) (hm : 1 ≤ m) : draw_count m 0 = m := by
  unfold draw_count
  have h2T := total_weight_eq m
  have hmm : m * (m + 1) = m * m + m := by ring
  have hm2 : m ≤ m * m := Nat.le_mul_of_pos_left m (by omega)
  have hbound : m ≤ total_weight m + 1 := by omega
  have hset : (Finset.range (total_weight m + 1)).filter (fun w => depth_pick m w = 0)
      = Finset.range m := by
    ext w
    simp only [Finset.mem_filter, Finset.mem_range]
    constructor
    · rintro ⟨-, h⟩; exact (depth_pick_eq_zero m w hm).mp h
    · intro hw; exact ⟨by omega, (depth_pick_eq_zero m w hm).mpr hw⟩
  rw [hset, Finset.card_range]

-- The number of draws on which the selector returns 1 is `maxDepth - 1`
-- (for `maxDepth ≥ 2`).
theorem draw_count_one (m : ℕ) (hm : 2 ≤ m) : draw_count m 1 = m - 1 := by
  unfold draw_count
  have h2T := total_weight_eq m
  have hmm : m * (m + 1) = m * m + m := by ring
  have hZ : 4 * (m : ℤ) ≤ (m : ℤ) * (m : ℤ) + 4 := by nlinarith [sq_nonneg ((m : ℤ) - 2)]
  have hN : 4 * m ≤ m * m + 4 := by exact_mod_cast hZ
  have hbound : m + (m - 1) ≤ total_weight m + 1 := by omega
  have hset : (Finset.range (total_weight m + 1)).filter (fun w => depth_pick m w = 1)
      = Finset.Ico m (m + (m - 1)) := by
    ext w
    simp only [Finset.mem_filter, Finset.mem_range, Finset.mem_Ico]
    constructor
    · rintro ⟨-, h⟩; exact (depth_pick_eq_one m w hm).mp h
    · intro hw
      exact ⟨by omega, (depth_pick_eq_one m w hm).mpr hw⟩
  rw [hset, Nat.card_Ico]
  omega

/-! ### Claim theorems -/

/-- C2: the depth selector always returns a depth at most the configured
maximum depth (it is a natural number, hence also `≥ 0`), for every value
of the raw uniform draw `r`; and when the maximum depth is 0 it always
returns 0. -/
theorem depth_gen_in_range (maxDepth r : ℕ) :
    depth_gen maxDepth r ≤ maxDepth ∧ depth_gen 0 r = 0 := by
  constructor
  · have h := depth_gen_go_le maxDepth (r % (1 + total_weight maxDepth)) maxDepth 0 0
    simpa [depth_gen, depth_pick] using h
  · simp [depth_gen, depth_pick, depth_gen_go]

/-- C3 (counterexample): with configured maximum depth 1, the draws in
`[0, total_weight] = [0, 1]` split evenly: exactly one draw yields depth 0
and exactly one yields depth 1, so depth 0 is not strictly more frequent
than depth 1, refuting the claim at `maxDepth = 1`. -/
theorem draw_count_tie_at_maxDepth_one :
    draw_count 1 0 = 1 ∧ draw_count 1 1 = 1 ∧ ¬draw_count 1 0 > draw_count 1 1 := by
  refine ⟨?_, ?_, ?_⟩ <;> decide

/-- C3 (amended): for every configured maximum depth `≥ 2`, the number of
uniform draw values in `[0, total_weight]` on which the depth selector
returns 0 strictly exceeds the number on which it returns 1 (they are
`maxDepth` and `maxDepth - 1` respectively); at `maxDepth = 1` the two
counts are equal. -/
theorem draw_count_zero_gt_one (m : ℕ) (hm : 2 ≤ m) :
    draw_count m 0 > draw_count m 1 := by
  rw [draw_count_zero m (by omega), draw_count_one m hm]
  omega

theorem draw_count_zero_gt_one_witness : 2 ≤ 2 ∧ draw_count 2 0 > draw_count 2 1 :=
  ⟨by norm_num, draw_count_zero_gt_one 2 (by norm_num)⟩

/-- C7: for every depth and every positive length, the color of the
symbol at index 0 is the brightest color assigned to that depth,
`1 + depth * COLOR_COUNT`, independently of the length. -/
theorem color_get_index_zero (depth : ℕ) (length : ℤ) (hl : 0 < length) :
    color_get depth 0 length = 1 + (depth : ℤ) * (COLOR_COUNT : ℤ) := by
  simp [color_get]

theorem color_get_index_zero_witness :
    (0 : ℤ) < 9 ∧ color_get 3 0 9 = 1 + (3 : ℤ) * (COLOR_COUNT : ℤ) :=
  ⟨by norm_num, color_get_index_zero 3 9 (by norm_num)⟩

/-- C4 (counterexample): the depth ratio computed by the parameter
generator is not `(maxDepth - depth) / maxDepth` for the configured
maximum depth used by the depth selector: with configured maximum depth
5 and `depth = 1` the spec formula gives `4/5` while the source computes
`(DEPTH_COUNT - 1) / DEPTH_COUNT = 5/6`, and the resulting `max_length`
values differ (25 in the source versus 24 by the spec formula, with
`lengthSetting = 10`). -/
theorem depth_ratio_not_spec :
    depth_ratio 1 ≠ spec_depth_ratio 5 1 ∧ max_length_gen 10 1 ≠ spec_max_length 5 10 1 := by
  constructor
  · unfold depth_ratio spec_depth_ratio DEPTH_COUNT
    norm_num
  · have h1 : max_length_gen 10 1 = 25 := by
      unfold max_length_gen RATIO_VALUE_GET depth_ratio c_trunc DEPTH_COUNT MIN_LENGTH MAX_LENGTH
      rw [if_pos (by norm_num), Int.floor_eq_iff]
      norm_num
    have h2 : spec_max_length 5 10 1 = 24 := by
      unfold spec_max_length spec_depth_ratio c_trunc MIN_LENGTH MAX_LENGTH
      rw [if_pos (by norm_num), Int.floor_eq_iff]
      norm_num
    rw [h1, h2]
    norm_num

/-- C4 (amended): the parameter generator computes
`depthRatio = (DEPTH_COUNT - depth) / DEPTH_COUNT`, where `DEPTH_COUNT = 6`
is the fixed number of depth layers (not the configured maximum depth
used by the depth selector), and the maximum length of `lengthFor` is
`MIN_LENGTH + ratio * (MAX_LENGTH - MIN_LENGTH)` truncated to an int,
with `ratio = lengthSetting/10 * depthRatio`, for every depth and every
length setting. -/
theorem max_length_formula (lengthSetting depth : ℕ) :
    depth_ratio depth = ((DEPTH_COUNT : ℚ) - (depth : ℚ)) / (DEPTH_COUNT : ℚ) ∧
    max_length_gen lengthSetting depth =
      c_trunc ((MIN_LENGTH : ℚ) +
        (((lengthSetting : ℚ) / 10) * (((DEPTH_COUNT : ℚ) - (depth : ℚ)) / (DEPTH_COUNT : ℚ))) *
        ((MAX_LENGTH : ℚ) - (MIN_LENGTH : ℚ))) := by
  refine ⟨rfl, ?_⟩
  unfold max_length_gen RATIO_VALUE_GET depth_ratio
  congr 1
  ring

/-- C5: for every depth at most the configured maximum depth (itself
below `DEPTH_COUNT`, as the option parser enforces), every length
setting in `[1, 10]` and every value of the uniform draw, `length_gen`
returns a value in `[MIN_LENGTH, MAX_LENGTH] = [4, 30]`. -/
theorem length_gen_in_range (maxDepth lengthSetting depth r : ℕ)
    (hd : depth ≤ maxDepth) (hm : maxDepth < DEPTH_COUNT)
    (hl1 : 1 ≤ lengthSetting) (hl10 : lengthSetting ≤ 10) :
    MIN_LENGTH ≤ length_gen lengthSetting depth r ∧
    length_gen lengthSetting depth r ≤ MAX_LENGTH := by
  have hd6 : (depth : ℚ) ≤ 6 := by
    have h : depth ≤ 6 := by unfold DEPTH_COUNT at hm; omega
    exact_mod_cast h
  have hdr0 : (0 : ℚ) ≤ depth_ratio depth := by
    unfold depth_ratio DEPTH_COUNT
    apply div_nonneg _ (by norm_num)
    push_cast
    linarith
  have hdr1 : depth_ratio depth ≤ 1 := by
    unfold depth_ratio DEPTH_COUNT
    rw [div_le_one (by norm_num)]
    have h : (0 : ℚ) ≤ (depth : ℚ) := by positivity
    push_cast
    linarith
  have hq0 : 0 ≤ ((lengthSetting : ℚ) / 10) * depth_ratio depth :=
    mul_nonneg (by positivity) hdr0
  have hq1 : ((lengthSetting : ℚ) / 10) * depth_ratio depth ≤ 1 := by
    have h1 : (lengthSetting : ℚ) / 10 ≤ 1 := by
      rw [div_le_one (by norm_num)]
      exact_mod_cast hl10
    calc ((lengthSetting : ℚ) / 10) * depth_ratio depth
        ≤ 1 * depth_ratio depth := mul_le_mul_of_nonneg_right h1 hdr0
      _ = depth_ratio depth := one_mul _
      _ ≤ 1 := hdr1
  have hx0 : (0 : ℚ) ≤ (((lengthSetting : ℚ) / 10) * depth_ratio depth) *
      ((MAX_LENGTH : ℚ) - (MIN_LENGTH : ℚ)) + (MIN_LENGTH : ℚ) := by
    unfold MIN_LENGTH MAX_LENGTH
    push_cast
    nlinarith
  have hM : max_length_gen lengthSetting depth = ⌊(((lengthSetting : ℚ) / 10) * depth_ratio depth) *
      ((MAX_LENGTH : ℚ) - (MIN_LENGTH : ℚ)) + (MIN_LENGTH : ℚ)⌋ := by
    unfold max_length_gen RATIO_VALUE_GET c_trunc
    rw [if_pos hx0]
  have hM4 : 4 ≤ max_length_gen lengthSetting depth := by
    rw [hM]
    apply Int.le_floor.mpr
    unfold MIN_LENGTH MAX_LENGTH
    push_cast
    nlinarith
  have hM30 : max_length_gen lengthSetting depth ≤ 30 := by
    rw [hM]
    have hlt : (((lengthSetting : ℚ) / 10) * depth_ratio depth) *
        ((MAX_LENGTH : ℚ) - (MIN_LENGTH : ℚ)) + (MIN_LENGTH : ℚ) < ((31 : ℤ) : ℚ) := by
      unfold MIN_LENGTH MAX_LENGTH
      push_cast
      nlinarith
    have h31 := Int.floor_lt.mpr hlt
    omega
  have key : length_gen lengthSetting depth r
      = (r : ℤ) % (1 + max_length_gen lengthSetting depth - MIN_LENGTH) + MIN_LENGTH := rfl
  have hmin : MIN_LENGTH = (4 : ℤ) := rfl
  have hmax : MAX_LENGTH = (30 : ℤ) := rfl
  have hmod0 : 0 ≤ (r : ℤ) % (1 + max_length_gen lengthSetting depth - MIN_LENGTH) :=
    Int.emod_nonneg _ (by omega)
  have hmodlt : (r : ℤ) % (1 + max_length_gen lengthSetting depth - MIN_LENGTH)
      < 1 + max_length_gen lengthSetting depth - MIN_LENGTH :=
    Int.emod_lt_of_pos _ (by omega)
  rw [key, hmin, hmax]
  rw [hmin] at hmod0 hmodlt
  constructor <;> omega

theorem length_gen_in_range_witness :
    (2 ≤ 5 ∧ 5 < DEPTH_COUNT ∧ 1 ≤ 5 ∧ 5 ≤ 10) ∧
    MIN_LENGTH ≤ length_gen 5 2 17 ∧ length_gen 5 2 17 ≤ MAX_LENGTH :=
  ⟨⟨by norm_num, by decide, by norm_num, by norm_num⟩,
   (length_gen_in_range 5 5 2 17 (by norm_num) (by decide) (by norm_num) (by norm_num)).1,
   (length_gen_in_range 5 5 2 17 (by norm_num) (by decide) (by norm_num) (by norm_num)).2⟩

/-- C8 (counterexample): the trailing-symbol shade is not interpolated
up to the dimmest shade of the depth block.  At depth 0, index 4,
length 5 the source computes shade offset `trunc(0.8 * (COLOR_COUNT-2-1)
+ 1) = 4` giving color 5, while interpolation between the
second-brightest shade (offset 1) and the dimmest shade (offset
`COLOR_COUNT - 1 = 6`) gives `trunc(0.8 * 5 + 1) = 5`, color 6.  (The
source never produces the two dimmest offsets 5 and 6 for any
`0 < index < length`; see the amended theorem.) -/
theorem color_get_not_dimmest :
    color_get 0 4 5 = 5 ∧ spec_color_get 0 4 5 = 6 ∧ color_get 0 4 5 ≠ spec_color_get 0 4 5 := by
  have h1 : color_get 0 4 5 = 5 := by
    have hx : RATIO_VALUE_GET 1 ((COLOR_COUNT : ℚ) - 2) (((4 : ℤ) : ℚ) / ((5 : ℤ) : ℚ))
        = 21 / 5 := by
      unfold RATIO_VALUE_GET COLOR_COUNT
      norm_num
    unfold color_get
    rw [if_neg (by norm_num), hx]
    have ht : c_trunc (21 / 5) = 4 := by
      unfold c_trunc
      rw [if_pos (by norm_num), Int.floor_eq_iff]
      norm_num
    rw [ht]
    norm_num [COLOR_COUNT]
  have h2 : spec_color_get 0 4 5 = 6 := by
    have hx : RATIO_VALUE_GET 1 ((COLOR_COUNT : ℚ) - 1) (((4 : ℤ) : ℚ) / ((5 : ℤ) : ℚ))
        = 5 := by
      unfold RATIO_VALUE_GET COLOR_COUNT
      norm_num
    unfold spec_color_get
    rw [if_neg (by norm_num), hx]
    have ht : c_trunc 5 = 5 := by
      unfold c_trunc
      rw [if_pos (by norm_num), Int.floor_eq_iff]
      norm_num
    rw [ht]
    norm_num [COLOR_COUNT]
  exact ⟨h1, h2, by rw [h1, h2]; norm_num⟩

/-- C8 (amended): for every depth and every symbol index with
`0 < index < length`, the color is `1 + depth * COLOR_COUNT` plus the
shade offset `trunc(index/length * (COLOR_COUNT - 2 - 1) + 1)`, an
interpolation from the second-brightest shade (offset 1) toward offset
`COLOR_COUNT - 2 = 5` truncated toward zero; the offset always lies in
`[1, 4]`, so the two dimmest shades of the depth block (offsets 5 and 6)
are never selected — in particular the dimmest shade is not attainable
as `index/length` approaches 1. -/
theorem color_get_trailing_range (depth : ℕ) (index length : ℤ)
    (h0 : 0 < index) (hil : index < length) :
    color_get depth index length =
      1 + (depth : ℤ) * (COLOR_COUNT : ℤ) + ⌊((index : ℚ) / (length : ℚ)) * 4 + 1⌋ ∧
    1 + (depth : ℤ) * (COLOR_COUNT : ℤ) + 1 ≤ color_get depth index length ∧
    color_get depth index length ≤ 1 + (depth : ℤ) * (COLOR_COUNT : ℤ) + 4 := by
  have hlen : (0 : ℚ) < (length : ℚ) := by
    have h : (0 : ℤ) < length := lt_trans h0 hil
    exact_mod_cast h
  have hq0 : 0 < (index : ℚ) / (length : ℚ) := by
    apply div_pos _ hlen
    exact_mod_cast h0
  have hq1 : (index : ℚ) / (length : ℚ) < 1 := by
    rw [div_lt_one hlen]
    exact_mod_cast hil
  have hval : RATIO_VALUE_GET 1 ((COLOR_COUNT : ℚ) - 2) ((index : ℚ) / (length : ℚ))
      = ((index : ℚ) / (length : ℚ)) * 4 + 1 := by
    unfold RATIO_VALUE_GET COLOR_COUNT
    norm_num
  have heq : color_get depth index length
      = 1 + (depth : ℤ) * (COLOR_COUNT : ℤ) + ⌊((index : ℚ) / (length : ℚ)) * 4 + 1⌋ := by
    unfold color_get
    rw [if_neg (by omega), hval]
    unfold c_trunc
    rw [if_pos (by nlinarith)]
  have hf1 : 1 ≤ ⌊((index : ℚ) / (length : ℚ)) * 4 + 1⌋ := by
    apply Int.le_floor.mpr
    push_cast
    nlinarith
  have hf4 : ⌊((index : ℚ) / (length : ℚ)) * 4 + 1⌋ ≤ 4 := by
    have h5 : ⌊((index : ℚ) / (length : ℚ)) * 4 + 1⌋ < 5 := by
      apply Int.floor_lt.mpr
      push_cast
      nlinarith
    omega
  refine ⟨heq, ?_, ?_⟩ <;> rw [heq] <;> omega

theorem color_get_trailing_range_witness :
    (0 : ℤ) < 1 ∧ (1 : ℤ) < 2 ∧
    (color_get 1 1 2 =
        1 + (1 : ℤ) * (COLOR_COUNT : ℤ) + ⌊(((1 : ℤ) : ℚ) / ((2 : ℤ) : ℚ)) * 4 + 1⌋ ∧
     1 + (1 : ℤ) * (COLOR_COUNT : ℤ) + 1 ≤ color_get 1 1 2 ∧
     color_get 1 1 2 ≤ 1 + (1 : ℤ) * (COLOR_COUNT : ℤ) + 4) :=
  ⟨by norm_num, by norm_num, color_get_trailing_range 1 1 2 (by norm_num) (by norm_num)⟩

-- Below the clock wrap, each advance only increments the clock.
theorem string_advance_below_depth (s : string_t) (rng : ℕ → ℕ) (r : ℕ)
    (hclock : s.clock = 0) :
    ∀ k, k ≤ s.depth → string_advance_n s rng r k = ({ s with clock := k }, r) := by
  intro k
  induction k with
  | zero =>
    intro _
    cases s with
    | mk sym len dep clk y =>
      simp only at hclock
      subst hclock
      rfl
  | succ n ih =>
    intro hk
    have step : string_advance_n s rng r (n + 1)
        = string_update (string_advance_n s rng r n).1 rng (string_advance_n s rng r n).2 := rfl
    rw [step, ih (by omega)]
    simp only [string_update]
    rw [Nat.mod_eq_of_lt (by simp; omega)]
    rw [if_pos (by omega)]

/-- C1: for every string whose clock is 0 (with a well-formed symbol
array of its positive length), the first `depth` consecutive calls of
`string_update` leave `y` and all symbols (index 0 included) unchanged,
and the `(depth + 1)`-st call increments `y` by exactly 1 and shifts the
symbol sequence right by one position with a fresh random symbol at
index 0. -/
theorem string_advance_cycle (s : string_t) (rng : ℕ → ℕ) (r : ℕ)
    (hclock : s.clock = 0) (hws : (s.symbols.length : ℤ) = s.length) (hpos : 0 < s.length) :
    (∀ k, k ≤ s.depth →
      (string_advance_n s rng r k).1.y = s.y ∧
      (string_advance_n s rng r k).1.symbols = s.symbols) ∧
    (string_advance_n s rng r (s.depth + 1)).1.y = s.y + 1 ∧
    (string_advance_n s rng r (s.depth + 1)).1.symbols
      = symbol_get (rng r) :: s.symbols.dropLast := by
  have hpre := string_advance_below_depth s rng r hclock
  refine ⟨?_, ?_⟩
  · intro k hk
    rw [hpre k hk]
    exact ⟨rfl, rfl⟩
  · have step : string_advance_n s rng r (s.depth + 1)
        = string_update (string_advance_n s rng r s.depth).1 rng (string_advance_n s rng r s.depth).2 := rfl
    rw [step, hpre s.depth (le_refl _)]
    simp [string_update]

theorem string_advance_cycle_witness :
    (string_w2.clock = 0 ∧ ((string_w2.symbols.length : ℤ) = string_w2.length) ∧
      0 < string_w2.length) ∧
    (string_advance_n string_w2 rng_one 0 (string_w2.depth + 1)).1.y = string_w2.y + 1 ∧
    (string_advance_n string_w2 rng_one 0 (string_w2.depth + 1)).1.symbols
      = symbol_get (rng_one 0) :: string_w2.symbols.dropLast :=
  ⟨⟨rfl, by decide, by decide⟩,
   (string_advance_cycle string_w2 rng_one 0 rfl (by decide) (by decide)).2⟩

/-! ### Helper lemmas for the column machinery -/

-- Step 1 of `column_update` preserves the number of strings.
theorem strings_update_length (strs : List string_t) (rng : ℕ → ℕ) :
    ∀ r, (strings_update strs rng r).1.length = strs.length := by
  induction strs with
  | nil => intro r; rfl
  | cons s rest ih =>
    intro r
    simp only [strings_update, List.length_cons]
    rw [ih]

-- A successful append leaves the old strings in place and adds one at
-- the end.
theorem string_append_ok (col col' : List string_t) (mD lS aS : ℕ)
    (env : env_t) (c c' : ctr_t)
    (h : string_append col mD lS aS env c = .ok (col', c')) :
    ∃ s, col' = col ++ [s] := by
  unfold string_append at h
  split at h
  · simp at h
  · next s c1 heq =>
    split at h
    · simp only [Except.ok.injEq, Prod.mk.injEq] at h
      exact ⟨s, h.1.symm⟩
    · simp at h

-- A successful removal drops exactly the first string.
theorem string_remove_ok_tail (col col' : List string_t) (env : env_t) (c c' : ctr_t)
    (h : string_remove col env c = .ok (col', c')) : col' = col.tail := by
  unfold string_remove at h
  split at h
  · simp at h
  · split at h
    · simp only [Except.ok.injEq, Prod.mk.injEq] at h
      exact h.1.symm
    · simp at h

-- Appending at the end does not change the head of a nonempty list.
theorem headD_append_ne_nil (l : List string_t) (s d : string_t) (h : l ≠ []) :
    (l ++ [s]).headD d = l.headD d := by
  cases l with
  | nil => exact absurd rfl h
  | cons a as => rfl

-- Exhaustive description of a successful `column_update`: either the
-- column was empty after step 1 and exactly one string was appended, or
-- it was nonempty and the append/remove branches fired exactly
-- according to the emergence condition on the newest string and the
-- visibility condition on the oldest one.
theorem column_update_cases (col : List string_t) (height : ℤ) (mD lS aS : ℕ)
    (env : env_t) (c : ctr_t) (col' : List string_t) (c' : ctr_t)
    (hok : column_update col height mD lS aS env c = .ok (col', c')) :
    (updated_col col env c = [] ∧ ∃ s, col' = [s]) ∨
    (updated_col col env c ≠ [] ∧
      ((emerged_cond (updated_col col env c) ∧ unseen_cond (updated_col col env c) height ∧
          ∃ s, col' = (updated_col col env c ++ [s]).tail) ∨
       (emerged_cond (updated_col col env c) ∧ ¬unseen_cond (updated_col col env c) height ∧
          ∃ s, col' = updated_col col env c ++ [s]) ∨
       (¬emerged_cond (updated_col col env c) ∧ unseen_cond (updated_col col env c) height ∧
          col' = (updated_col col env c).tail) ∨
       (¬emerged_cond (updated_col col env c) ∧ ¬unseen_cond (updated_col col env c) height ∧
          col' = updated_col col env c))) := by
  unfold updated_col emerged_cond unseen_cond
  simp only [column_update] at hok
  split at hok
  · next hemp =>
    split at hok
    · simp at hok
    · next x heq =>
      obtain ⟨xl, xc⟩ := x
      simp only [Except.ok.injEq, Prod.mk.injEq] at hok
      obtain ⟨h1, -⟩ := hok
      obtain ⟨s, hs⟩ := string_append_ok _ _ _ _ _ _ _ _ heq
      have hnil : (strings_update col env.rng c.r).1 = [] := List.isEmpty_iff.mp hemp
      left
      refine ⟨hnil, ⟨s, ?_⟩⟩
      rw [← h1, hs, hnil]
      rfl
  · next hemp =>
    have hne : (strings_update col env.rng c.r).1 ≠ [] := by
      intro hh
      rw [hh] at hemp
      simp at hemp
    right
    refine ⟨hne, ?_⟩
    split at hok
    · simp at hok
    · next x heq =>
      obtain ⟨l2, c2⟩ := x
      dsimp only at hok
      split at heq
      · next hA =>
        obtain ⟨s, hs⟩ := string_append_ok _ _ _ _ _ _ _ _ heq
        have hhead : l2.headD default = (strings_update col env.rng c.r).1.headD default := by
          rw [hs]
          exact headD_append_ne_nil _ _ _ hne
        rw [hhead] at hok
        split at hok
        · next hR =>
          split at hok
          · simp at hok
          · next yy hrem =>
            obtain ⟨l3, c3⟩ := yy
            simp only [Except.ok.injEq, Prod.mk.injEq] at hok
            obtain ⟨h1, -⟩ := hok
            have h3 : l3 = l2.tail := string_remove_ok_tail _ _ _ _ _ hrem
            refine Or.inl ⟨hA, hR, ⟨s, ?_⟩⟩
            rw [← h1, h3, hs]
        · next hR =>
          simp only [Except.ok.injEq, Prod.mk.injEq] at hok
          obtain ⟨h1, -⟩ := hok
          exact Or.inr (Or.inl ⟨hA, hR, ⟨s, by rw [← h1, hs]⟩⟩)
      · next hA =>
        simp only [Except.ok.injEq, Prod.mk.injEq] at heq
        obtain ⟨h2, -⟩ := heq
        subst h2
        split at hok
        · next hR =>
          split at hok
          · simp at hok
          · next yy hrem =>
            obtain ⟨l3, c3⟩ := yy
            simp only [Except.ok.injEq, Prod.mk.injEq] at hok
            obtain ⟨h1, -⟩ := hok
            have h3 : l3 = (strings_update col env.rng c.r).1.tail :=
              string_remove_ok_tail _ _ _ _ _ hrem
            refine Or.inr (Or.inr (Or.inl ⟨hA, hR, ?_⟩))
            rw [← h1, h3]
        · next hR =>
          simp only [Except.ok.injEq, Prod.mk.injEq] at hok
          obtain ⟨h1, -⟩ := hok
          exact Or.inr (Or.inr (Or.inr ⟨hA, hR, h1.symm⟩))

/-- C6: for every column and every single successful `column_update`
(all allocations succeed), the string count changes by at most 1 in
magnitude; when the append condition (newest string fully emerged) and
the remove condition (oldest string fully below the viewport) both hold
on the updated strings, append and removal both occur and the count is
unchanged; a column with zero strings gains exactly one string. -/
theorem column_update_count_delta (col : List string_t) (height : ℤ) (mD lS aS : ℕ)
    (env : env_t) (c : ctr_t) (col' : List string_t) (c' : ctr_t)
    (hok : column_update col height mD lS aS env c = .ok (col', c')) :
    (col.length = 0 → col'.length = 1) ∧
    (col'.length = col.length + 1 ∨ col'.length = col.length ∨ col'.length + 1 = col.length) ∧
    (updated_col col env c ≠ [] → emerged_cond (updated_col col env c) →
      unseen_cond (updated_col col env c) height → col'.length = col.length) := by
  have hlen : (updated_col col env c).length = col.length := strings_update_length col env.rng c.r
  rcases column_update_cases col height mD lS aS env c col' c' hok with
    ⟨hnil, s, rfl⟩ | ⟨hne, hc⟩
  · have h0 : col.length = 0 := by
      rw [← hlen, hnil]
      rfl
    refine ⟨fun _ => rfl, ?_, ?_⟩
    · left
      simp [h0]
    · intro hne1 _ _
      exact absurd hnil hne1
  · have hupos : 0 < (updated_col col env c).length := List.length_pos.mpr hne
    rcases hc with ⟨hA, hR, s, rfl⟩ | ⟨hA, hR, s, rfl⟩ | ⟨hA, hR, rfl⟩ | ⟨hA, hR, rfl⟩
    · have hc' : ((updated_col col env c ++ [s]).tail).length = (updated_col col env c).length := by
        rw [List.length_tail, List.length_append]
        simp
      exact ⟨fun h0 => by omega, Or.inr (Or.inl (by omega)), fun _ _ _ => by omega⟩
    · have hc' : (updated_col col env c ++ [s]).length = (updated_col col env c).length + 1 := by
        rw [List.length_append]
        rfl
      exact ⟨fun h0 => by omega, Or.inl (by omega), fun _ _ hu => absurd hu hR⟩
    · have hc' : ((updated_col col env c).tail).length = (updated_col col env c).length - 1 :=
        List.length_tail _
      exact ⟨fun h0 => by omega, Or.inr (Or.inr (by omega)), fun _ he _ => absurd he hA⟩
    · exact ⟨fun h0 => by omega, Or.inr (Or.inl (by omega)), fun _ _ _ => by omega⟩

theorem column_update_count_delta_witness :
    column_update [string_w0] 24 0 5 5 env_ok ⟨0, 0⟩ = .ok ([string_w1], ⟨1, 0⟩) ∧
    ((([string_w0] : List string_t).length = 0 → ([string_w1] : List string_t).length = 1) ∧
     (([string_w1] : List string_t).length = ([string_w0] : List string_t).length + 1 ∨
      ([string_w1] : List string_t).length = ([string_w0] : List string_t).length ∨
      ([string_w1] : List string_t).length + 1 = ([string_w0] : List string_t).length) ∧
     (updated_col [string_w0] env_ok ⟨0, 0⟩ ≠ [] →
       emerged_cond (updated_col [string_w0] env_ok ⟨0, 0⟩) →
       unseen_cond (updated_col [string_w0] env_ok ⟨0, 0⟩) 24 →
       ([string_w1] : List string_t).length = ([string_w0] : List string_t).length)) :=
  ⟨rfl, column_update_count_delta [string_w0] 24 0 5 5 env_ok ⟨0, 0⟩ [string_w1] ⟨1, 0⟩ rfl⟩

/-- C10: for every viewport height at least 1, a nonempty column stays
nonempty across a successful `column_update`: when the column holds a
single string, the remove condition (`y - length >= height`) forces the
append condition (`y - length > 0`) on that same string, so every
removal happens with at least two strings present and the post-update
count is at least 1 (a singleton column in particular never shrinks). -/
theorem column_update_stays_nonempty (col : List string_t) (height : ℤ) (mD lS aS : ℕ)
    (env : env_t) (c : ctr_t) (col' : List string_t) (c' : ctr_t)
    (hh : 1 ≤ height) (hcol : col ≠ [])
    (hok : column_update col height mD lS aS env c = .ok (col', c')) :
    col' ≠ [] ∧ (col.length = 1 → col.length ≤ col'.length) := by
  have hlen : (updated_col col env c).length = col.length := strings_update_length col env.rng c.r
  have hcolpos : 0 < col.length := List.length_pos.mpr hcol
  rcases column_update_cases col height mD lS aS env c col' c' hok with
    ⟨hnil, s, rfl⟩ | ⟨hne, hc⟩
  · have h0 : col.length = 0 := by
      rw [← hlen, hnil]
      rfl
    omega
  · have hupos : 0 < (updated_col col env c).length := List.length_pos.mpr hne
    rcases hc with ⟨hA, hR, s, rfl⟩ | ⟨hA, hR, s, rfl⟩ | ⟨hA, hR, rfl⟩ | ⟨hA, hR, rfl⟩
    · have hc' : ((updated_col col env c ++ [s]).tail).length = (updated_col col env c).length := by
        rw [List.length_tail, List.length_append]
        simp
      constructor
      · intro hemp
        rw [hemp] at hc'
        simp at hc'
        omega
      · intro _
        omega
    · constructor
      · simp
      · intro _
        rw [List.length_append]
        omega
    · have hlen2 : 2 ≤ (updated_col col env c).length := by
        by_contra hlt
        have h1 : (updated_col col env c).length = 1 := by omega
        obtain ⟨t, ht⟩ := List.length_eq_one.mp h1
        have hgl : ([t].getLastD (default : string_t)) = t := rfl
        have hhd : ([t].headD (default : string_t)) = t := rfl
        rw [ht] at hA hR
        unfold emerged_cond at hA
        unfold unseen_cond at hR
        rw [hgl] at hA
        rw [hhd] at hR
        omega
      have hc' : ((updated_col col env c).tail).length = (updated_col col env c).length - 1 :=
        List.length_tail _
      constructor
      · intro hemp
        rw [hemp] at hc'
        simp at hc'
        omega
      · intro h1
        omega
    · exact ⟨hne, fun _ => by omega⟩

theorem column_update_stays_nonempty_witness :
    (1 : ℤ) ≤ 24 ∧ ([string_w0] : List string_t) ≠ [] ∧
    column_update [string_w0] 24 0 5 5 env_ok ⟨0, 0⟩ = .ok ([string_w1], ⟨1, 0⟩) ∧
    (([string_w1] : List string_t) ≠ [] ∧
      (([string_w0] : List string_t).length = 1 →
        ([string_w0] : List string_t).length ≤ ([string_w1] : List string_t).length)) :=
  ⟨by norm_num, by simp, rfl,
   column_update_stays_nonempty [string_w0] 24 0 5 5 env_ok ⟨0, 0⟩ [string_w1] ⟨1, 0⟩
     (by norm_num) (by simp) rfl⟩

-- If a prefix of columns updates successfully and the next column's
-- update fails, the whole screen update returns the error code 1.
theorem screen_update_fail (rest : List (List string_t)) (bad : List string_t)
    (height : ℤ) (mD lS aS : ℕ) (env : env_t) (pre : List (List string_t)) :
    ∀ c pre' c1 e, screen_update pre height mD lS aS env c = .ok (pre', c1) →
      column_update bad height mD lS aS env c1 = .error e →
      screen_update (pre ++ bad :: rest) height mD lS aS env c = .error 1 := by
  induction pre with
  | nil =>
    intro c pre' c1 e hpre hbad
    simp only [screen_update, Except.ok.injEq, Prod.mk.injEq] at hpre
    obtain ⟨-, hc⟩ := hpre
    subst hc
    simp only [List.nil_append, screen_update]
    rw [hbad]
  | cons p ps ih =>
    intro c pre' c1 e hpre hbad
    simp only [screen_update] at hpre
    cases hcu : column_update p height mD lS aS env c with
    | error e2 =>
      rw [hcu] at hpre
      simp at hpre
    | ok x =>
      obtain ⟨p', c2⟩ := x
      rw [hcu] at hpre
      dsimp only at hpre
      cases hrest : screen_update ps height mD lS aS env c2 with
      | error e3 =>
        rw [hrest] at hpre
        simp at hpre
      | ok z =>
        obtain ⟨ps', c3⟩ := z
        rw [hrest] at hpre
        simp only [Except.ok.injEq, Prod.mk.injEq] at hpre
        obtain ⟨-, hc⟩ := hpre
        subst hc
        simp only [List.cons_append, screen_update]
        rw [hcu]
        dsimp only
        simp only [List.append_eq]
        rw [ih c2 ps' c3 e hrest hbad]

/-- C9: if some column's update fails (the prefix before it having
updated successfully — column updates fail only on allocation failure),
then `screen_update` returns the nonzero error 1 rather than skipping
the failure, and the render loop performs that one failing
`screen_update` call and stops: no further ticks run, for any remaining
fuel, as long as the running flag was set when the tick began. -/
theorem screen_update_fail_stops_loop (pre rest : List (List string_t)) (bad : List string_t)
    (height : ℤ) (mD lS aS : ℕ) (env : env_t) (running : ℕ → Bool)
    (c c1 : ctr_t) (pre' : List (List string_t)) (e : ℕ)
    (hpre : screen_update pre height mD lS aS env c = .ok (pre', c1))
    (hbad : column_update bad height mD lS aS env c1 = .error e)
    (hrun : running 0 = true) :
    screen_update (pre ++ bad :: rest) height mD lS aS env c = .error 1 ∧
    ∀ fuel, print_routine_loop height mD lS aS env running (fuel + 1) 0 (pre ++ bad :: rest) c = 1 := by
  have hmain := screen_update_fail rest bad height mD lS aS env pre c pre' c1 e hpre hbad
  refine ⟨hmain, fun fuel => ?_⟩
  simp only [print_routine_loop, hrun, if_true, hmain]

theorem screen_update_fail_stops_loop_witness :
    screen_update [[]] 24 0 5 5 env_no_alloc ⟨0, 0⟩ = .error 1 ∧
    print_routine_loop 24 0 5 5 env_no_alloc running_true 5 0 [[]] ⟨0, 0⟩ = 1 :=
  ⟨(screen_update_fail_stops_loop [] [] [] 24 0 5 5 env_no_alloc running_true
      ⟨0, 0⟩ ⟨0, 0⟩ [] 1 rfl rfl rfl).1,
   (screen_update_fail_stops_loop [] [] [] 24 0 5 5 env_no_alloc running_true
      ⟨0, 0⟩ ⟨0, 0⟩ [] 1 rfl rfl rfl).2 4⟩
